import Mathlib

/-!
# Flow query-evaluation and search-integration layer: a verification development

This file embeds the query-evaluation / search-integration core of the Flow
repository (the Rust port of Halo).  The Rust sources of this layer
(`flow-infra/src/index/query_visitor.rs`, `flow-api/src/search/mod.rs`,
`flow-infra/src/index/fulltext_field_mapping.rs`,
`flow-infra/src/index/doc_type_converter.rs`, the search service and
`CachedSearchService`) are not present in the checkout; only the repository's
own documentation of them is (`docs` on the search API and on the
Contains/full-text integration).  Every definition below is therefore modelled
from the specification and from those repository documents, as its doc comment
records.
-/

namespace Flow

/-! Sort options and search options -/

/-- Modelled from the spec: sort field of a ranked search
(`relevance`/`creationTime`/`updateTime`/`title`). -/
inductive SortBy where
  | relevance
  | creationTime
  | updateTime
  | title
deriving DecidableEq, Repr

/-- Modelled from the spec: sort direction, default `desc`. -/
inductive SortOrder where
  | asc
  | desc
deriving DecidableEq, Repr

/-- Modelled from the spec: a `SearchOption` as received from the caller.
Optional fields are `none` when the caller left them unset; tri-state filters
are `Option Bool` (unset means "no filter"); include-lists are optional string
lists. -/
structure SearchOption where
  keyword : String
  limit : Option Nat := none
  highlightPreTag : Option String := none
  highlightPostTag : Option String := none
  filterExposed : Option Bool := none
  filterRecycled : Option Bool := none
  filterPublished : Option Bool := none
  includeTypes : Option (List String) := none
  includeOwnerNames : Option (List String) := none
  includeCategoryNames : Option (List String) := none
  includeTagNames : Option (List String) := none
  sortBy : Option SortBy := none
  sortOrder : Option SortOrder := none
deriving DecidableEq, Repr

/-- Modelled from the spec: a fully normalized `SearchOption`, with every
defaulted field resolved to its effective value (limit 10, highlight tags
`<B>`/`</B>`, absent include-lists resolved to the empty list meaning "no
constraint", sort `relevance`/`desc`).  Tri-state filters stay `Option Bool`
because "unset" is semantically distinct from `true`/`false`. -/
structure NormalizedSearchOption where
  keyword : String
  limit : Nat
  highlightPreTag : String
  highlightPostTag : String
  filterExposed : Option Bool
  filterRecycled : Option Bool
  filterPublished : Option Bool
  includeTypes : List String
  includeOwnerNames : List String
  includeCategoryNames : List String
  includeTagNames : List String
  sortBy : SortBy
  sortOrder : SortOrder
deriving DecidableEq, Repr

/-- Modelled from the spec: normalization of a `SearchOption`, filling every
unset field with its documented default. -/
def normalize (o : SearchOption) : NormalizedSearchOption :=
  { keyword := o.keyword
    limit := o.limit.getD 10
    highlightPreTag := o.highlightPreTag.getD "<B>"
    highlightPostTag := o.highlightPostTag.getD "</B>"
    filterExposed := o.filterExposed
    filterRecycled := o.filterRecycled
    filterPublished := o.filterPublished
    includeTypes := o.includeTypes.getD []
    includeOwnerNames := o.includeOwnerNames.getD []
    includeCategoryNames := o.includeCategoryNames.getD []
    includeTagNames := o.includeTagNames.getD []
    sortBy := o.sortBy.getD .relevance
    sortOrder := o.sortOrder.getD .desc }

/-- The same `SearchOption` with every defaulted field spelled out explicitly
(an explicit value equal to the default instead of "unset").  Used to state
the fingerprint invariant about default-vs-explicit option sets. -/
def withExplicitDefaults (o : SearchOption) : SearchOption :=
  { o with
    limit := some (o.limit.getD 10)
    highlightPreTag := some (o.highlightPreTag.getD "<B>")
    highlightPostTag := some (o.highlightPostTag.getD "</B>")
    includeTypes := some (o.includeTypes.getD [])
    includeOwnerNames := some (o.includeOwnerNames.getD [])
    includeCategoryNames := some (o.includeCategoryNames.getD [])
    includeTagNames := some (o.includeTagNames.getD [])
    sortBy := some (o.sortBy.getD .relevance)
    sortOrder := some (o.sortOrder.getD .desc) }

/-- Modelled from the spec: `CachedSearchService` keys its cache by a SHA256
hash of the fully normalized `SearchOption` (repository docs: the cache key is
generated by SHA256-hashing the search options).  The hash is idealized as
collision-free, so the fingerprint is modelled as the normalized option
itself; a Lean record has no field order, matching the requirement that field
order must not affect the hash. -/
def fingerprint (o : SearchOption) : NormalizedSearchOption :=
  normalize o

/-! Case-insensitive substring matching, the structural fallback -/

/-- Helper for the substring check used by the structural fallback:
`leadsWith l p` is `true` when the list `p` occurs at the very front of
`l`. -/
def leadsWith : List Char → List Char → Bool
  | _, [] => true
  | [], _ :: _ => false
  | a :: as, b :: bs => a == b && leadsWith as bs

/-- Test whether `needle` occurs contiguously somewhere inside `hay`. -/
def occursIn (needle : List Char) : List Char → Bool
  | [] => needle.isEmpty
  | c :: rest => leadsWith (c :: rest) needle || occursIn needle rest

/-- Modelled from the spec: case-insensitive substring comparison, the literal
field comparison the evaluator falls back to when a `Contains` leaf cannot be
delegated to the search engine. -/
def containsIgnoreCase (hay needle : String) : Bool :=
  occursIn (needle.toList.map Char.toLower) (hay.toList.map Char.toLower)

/-! Structural objects and the evaluation environment -/

/-- Modelled from the spec: a structural record as seen by the evaluator — an
object name (unique within its kind/group) together with its literal field
values, addressed by field path. -/
structure Obj where
  name : String
  fields : List (String × String)
deriving DecidableEq, Repr

/-- Read the literal value of field path `f` from a structural record's field
list (first match wins). -/
def getFieldValue : List (String × String) → String → Option String
  | [], _ => none
  | (k, v) :: rest, f => if k = f then some v else getFieldValue rest f

/-- Modelled from the spec: an engine error — `EngineUnavailable` (engine not
configured/down) or `EngineError` (query execution failure); both are treated
identically by callers as "fall back". -/
inductive EngineErr where
  | unavailable
  | engineError (msg : String)
deriving DecidableEq, Repr

/-- Modelled from the spec: the Search Engine Port's `search` operation, as the
Condition Evaluator consumes it — from a `SearchOption` to either an engine
error or the list of `metadata_name`s extracted from the returned hits. -/
abbrev EngineSearch : Type :=
  SearchOption → Except EngineErr (List String)

/-- Modelled from the spec: the `FulltextFieldMapping` — a static table from
field path to the list of document types for which that field is full-text
backed. -/
abbrev FulltextFieldMapping : Type :=
  List (String × List String)

/-- Modelled from the spec: the default `FulltextFieldMapping` of the
repository — `spec.title` for posts and single pages, `status.excerpt` for
posts. -/
def defaultFulltextFieldMapping : FulltextFieldMapping :=
  [("spec.title", ["post.content.halo.run", "singlepage.content.halo.run"]),
   ("status.excerpt", ["post.content.halo.run"])]

/-- Modelled from the spec: a `Contains` condition on field path `f` is
full-text-eligible for document type `dt` exactly when the registry maps `f`
to a set of document types containing `dt`. -/
def fulltextEligible (reg : FulltextFieldMapping) (f dt : String) : Bool :=
  reg.any (fun p => p.1 == f && p.2.contains dt)

/-- Modelled from the spec: the environment a condition is evaluated in — the
structural store's objects of the target object type (their names form the
full universe), the target type's document type when the type implements
`DocTypeProvider` (`none` otherwise), the Fulltext Field Registry, and the
optionally configured search engine. -/
structure EvalEnv where
  objects : List Obj
  docType : Option String
  registry : FulltextFieldMapping
  engine : Option EngineSearch

/-- The full universe of the target object type: all object names of that
type, the identity element for `And` and the complement base for `Not`. -/
def univNames (env : EvalEnv) : Finset String :=
  (env.objects.map Obj.name).toFinset

/-! Conditions and their evaluation -/

/-- Modelled from the spec: the closed tagged-union of condition variants the
evaluator dispatches on. -/
inductive Condition where
  | and (children : List Condition)
  | or (children : List Condition)
  | not (child : Condition)
  | equal (field value : String)
  | notEqual (field value : String)
  | isIn (field : String) (values : List String)
  | contains (field value : String)
deriving Repr

/-- Structural-index resolution of an `Equal` leaf: the names of objects whose
literal value at the field path equals the given value. -/
def structEqual (objs : List Obj) (f v : String) : Finset String :=
  ((objs.filter (fun o => getFieldValue o.fields f == some v)).map Obj.name).toFinset

/-- Structural-index resolution of an `In` leaf: the names of objects whose
literal value at the field path is one of the given values. -/
def structIn (objs : List Obj) (f : String) (vs : List String) : Finset String :=
  ((objs.filter (fun o =>
    match getFieldValue o.fields f with
    | some s => vs.contains s
    | none => false)).map Obj.name).toFinset

/-- Modelled from the spec: the structural fallback for a `Contains` leaf —
case-insensitive substring comparison against the literal field value read
from the structural record. -/
def substringFallback (objs : List Obj) (f v : String) : Finset String :=
  ((objs.filter (fun o =>
    match getFieldValue o.fields f with
    | some s => containsIgnoreCase s v
    | none => false)).map Obj.name).toFinset

/-- Modelled from the spec: the scoped `SearchOption` built for a delegated
`Contains` leaf — keyword is the literal value, include-types is the single
document type of the target object type, limit is the 10000 "all matches"
ceiling, sort is relevance. -/
def scopedOption (v dt : String) : SearchOption :=
  { keyword := v
    limit := some 10000
    includeTypes := some [dt]
    sortBy := some .relevance }

/-- Modelled from the spec: evaluation of a single `Contains` leaf by the
`QueryVisitor`.  The second component records, for audit, the
(field, doc-type) pair of every query actually delegated to the engine.
Delegation happens only when the target type has a document type, the field is
full-text-eligible for it, and an engine is configured; an engine error is
absorbed by falling back to substring matching (logged, never surfaced). -/
def evalContains (env : EvalEnv) (f v : String) :
    Finset String × List (String × String) :=
  match env.docType with
  | none => (substringFallback env.objects f v, [])
  | some dt =>
    if fulltextEligible env.registry f dt then
      match env.engine with
      | none => (substringFallback env.objects f v, [])
      | some search =>
        match search (scopedOption v dt) with
        | .ok names => (names.toFinset, [(f, dt)])
        | .error _ => (substringFallback env.objects f v, [(f, dt)])
    else (substringFallback env.objects f v, [])

mutual

/-- Modelled from the spec: the recursive condition evaluator
(`QueryVisitor`).  Returns the set of matching object names together with the
audit list of (field, doc-type) pairs delegated to the search engine.  `And`
of an empty child list is the full universe, `Or` of an empty child list is
the empty set, `Not` complements relative to the full universe of the target
object type. -/
def evalFull (env : EvalEnv) : Condition → Finset String × List (String × String)
  | .and cs => evalAnd env cs
  | .or cs => evalOr env cs
  | .not c =>
    let r := evalFull env c
    (univNames env \ r.1, r.2)
  | .equal f v => (structEqual env.objects f v, [])
  | .notEqual f v => (univNames env \ structEqual env.objects f v, [])
  | .isIn f vs => (structIn env.objects f vs, [])
  | .contains f v => evalContains env f v

/-- Intersection of the children of an `And` node; the empty child list yields
the full universe (the identity element of intersection). -/
def evalAnd (env : EvalEnv) : List Condition → Finset String × List (String × String)
  | [] => (univNames env, [])
  | [c] => evalFull env c
  | c :: c' :: rest =>
    let r := evalFull env c
    let r' := evalAnd env (c' :: rest)
    (r.1 ∩ r'.1, r.2 ++ r'.2)

/-- Union of the children of an `Or` node; the empty child list yields the
empty set. -/
def evalOr (env : EvalEnv) : List Condition → Finset String × List (String × String)
  | [] => (∅, [])
  | [c] => evalFull env c
  | c :: c' :: rest =>
    let r := evalFull env c
    let r' := evalOr env (c' :: rest)
    (r.1 ∪ r'.1, r.2 ++ r'.2)

end

/-- The result set of evaluating a condition: the set of matching object
names. -/
def eval (env : EvalEnv) (c : Condition) : Finset String :=
  (evalFull env c).1

/-- The audit list of (field, doc-type) pairs a condition's evaluation
delegated to the search engine. -/
def enginePairs (env : EvalEnv) (c : Condition) : List (String × String) :=
  (evalFull env c).2

/-- Modelled from the spec: the standard `retrieve()` path of the index
engine, available to every Extension type — it never consults the search
engine, so every `Contains` leaf uses literal string matching. -/
def retrieveStd (env : EvalEnv) (c : Condition) : Finset String :=
  eval { env with docType := none, engine := none } c

/-- Modelled from the spec: the `retrieve_with_fulltext()` path of the index
engine, available only to Extension types implementing `DocTypeProvider` —
evaluation with the type's document type in scope, so eligible `Contains`
leaves may be delegated to the engine. -/
def retrieveWithFulltext (env : EvalEnv) (dt : String) (c : Condition) : Finset String :=
  eval { env with docType := some dt } c

/-- The fallback situations of a `Contains` leaf, as the spec lists them: no
search engine configured, the delegated search call errored, or the field is
not full-text-eligible for the target type's document type (including the
target type having no document type at all). -/
def fallbackTriggered (env : EvalEnv) (f v : String) : Prop :=
  env.engine = none ∨
  env.docType = none ∨
  (∃ dt, env.docType = some dt ∧ fulltextEligible env.registry f dt = false) ∨
  (∃ dt g e, env.docType = some dt ∧ env.engine = some g ∧
    g (scopedOption v dt) = Except.error e)

/-- The soundness condition on a configured engine that the evaluator's
universe reasoning relies on: a successful scoped search returns names of
objects of the target type, i.e. names inside the full universe. -/
def engineSound (env : EvalEnv) : Prop :=
  ∀ g o r, env.engine = some g → g o = Except.ok r → ∀ n ∈ r, n ∈ univNames env

/-! The ranked keyword search service -/

/-- Modelled from the spec: the error taxonomy of the search layer.
`InvalidArgument` is user-correctable and surfaced verbatim. -/
inductive FlowError where
  | invalidArgument (msg : String)
  | engineUnavailable
  | engineError (msg : String)
deriving DecidableEq, Repr

/-- Modelled from the spec: validation of a ranked keyword search request.
An empty keyword is rejected with `InvalidArgument` carrying the message the
repository's API documentation shows ("Keyword cannot be empty"); a limit
outside [1, 1000] is rejected with `InvalidArgument`. -/
def validateSearchRequest (keyword : String) (limit : Nat) : Except FlowError Unit :=
  if keyword.isEmpty then
    Except.error (FlowError.invalidArgument "Keyword cannot be empty")
  else if limit < 1 || limit > 1000 then
    Except.error (FlowError.invalidArgument "limit must be between 1 and 1000")
  else
    Except.ok ()

/-- Modelled from the spec: a tri-state filter — `none` imposes no constraint,
`some b` requires the document flag to equal `b`. -/
def passesTri (filt : Option Bool) (actual : Bool) : Bool :=
  match filt with
  | none => true
  | some b => b == actual

/-- Modelled from the spec: an OR include-list — empty means no constraint,
otherwise the document's value must be one of the listed values. -/
def passesAnyOf (lst : List String) (actual : String) : Bool :=
  lst.isEmpty || lst.contains actual

/-- Modelled from the spec: an AND include-list — the document must carry
every listed value; the empty list imposes no constraint. -/
def passesAllOf (lst : List String) (actualSet : List String) : Bool :=
  lst.all (fun x => actualSet.contains x)

/-- Modelled from the spec: a search document as indexed by the engine —
identity, the three full-text fields (title, description, content), permalink,
document type, and passthrough metadata. -/
structure Doc where
  name : String
  title : String
  description : String
  content : String
  permalink : String
  docType : String
  published : Bool
  exposed : Bool
  recycled : Bool
  ownerName : String
  categories : List String
  tags : List String
deriving DecidableEq, Repr

/-- Modelled from the spec: keyword matching of a document — an empty keyword
matches every document (the call still returns all matching documents); a
non-empty keyword must occur in one of the full-text fields. -/
def docMatches (kw : String) (d : Doc) : Bool :=
  kw.isEmpty || containsIgnoreCase d.title kw ||
    containsIgnoreCase d.description kw || containsIgnoreCase d.content kw

/-- Modelled from the spec: whether a document passes the optional filters and
include-lists of a normalized option (tri-state filters; OR semantics for
types and owners, AND semantics for categories and tags). -/
def docPassesFilters (o : NormalizedSearchOption) (d : Doc) : Bool :=
  passesTri o.filterExposed d.exposed &&
  passesTri o.filterRecycled d.recycled &&
  passesTri o.filterPublished d.published &&
  passesAnyOf o.includeTypes d.docType &&
  passesAnyOf o.includeOwnerNames d.ownerName &&
  passesAllOf o.includeCategoryNames d.categories &&
  passesAllOf o.includeTagNames d.tags

/-- Left-to-right scan wrapping every occurrence of `needle` in the pre/post
tags; the tag characters are spliced in verbatim.  The fuel argument (the
length of the scanned text at the first call) only drives structural
recursion: every step consumes at least one character. -/
def highlightAux (pre post needle : List Char) : Nat → List Char → List Char
  | 0, l => l
  | _ + 1, [] => []
  | fuel + 1, c :: rest =>
    if needle.isEmpty then c :: rest
    else if leadsWith (c :: rest) needle then
      pre ++ needle ++ post ++
        highlightAux pre post needle fuel (rest.drop (needle.length - 1))
    else c :: highlightAux pre post needle fuel rest

/-- Modelled from the spec: highlighting of one field — every matched span of
the keyword is wrapped in the pre/post tags, which are inserted verbatim and
not escaped. -/
def highlightField (pre post kw s : String) : String :=
  if kw.isEmpty then s
  else (highlightAux pre.toList post.toList kw.toList s.toList.length s.toList).asString

/-- Modelled from the spec: highlighting of a hit — applied only to the
`title`, `description` and `content` fields, and disabled automatically when
the keyword is empty. -/
def highlightDoc (kw pre post : String) (d : Doc) : Doc :=
  if kw.isEmpty then d
  else
    { d with
      title := highlightField pre post kw d.title
      description := highlightField pre post kw d.description
      content := highlightField pre post kw d.content }

/-- Modelled from the spec: the ranked keyword search pipeline after
validation — filter the indexed documents by keyword and by the optional
filters, apply highlighting, truncate to the limit. -/
def searchDocs (docs : List Doc) (o : NormalizedSearchOption) : List Doc :=
  ((docs.filter (fun d => docMatches o.keyword d && docPassesFilters o d)).map
    (highlightDoc o.keyword o.highlightPreTag o.highlightPostTag)).take o.limit

/-! The search cache and its invalidation -/

/-- Modelled from the spec: a cache entry of `CachedSearchService` — the
normalized option whose fingerprint keys it, the memoized result list, and the
insertion time used for TTL expiry. -/
structure CacheEntry where
  option : NormalizedSearchOption
  results : List Doc
  insertedAt : Nat
deriving DecidableEq, Repr

/-- Whether a document type has at least one registered full-text field — a
mutation of an object of such a type is a cache-relevant mutation. -/
def docTypeHasFulltextField (reg : FulltextFieldMapping) (dt : String) : Bool :=
  reg.any (fun p => p.2.contains dt)

/-- Whether a cache entry is covered by a mutation of document type `dt`: its
include-type filter is empty (untyped query) or includes `dt`. -/
def entryCovers (dt : String) (e : CacheEntry) : Bool :=
  e.option.includeTypes.isEmpty || e.option.includeTypes.contains dt

/-- Modelled from the spec: the cache-invalidation hook run on every
successful create/update/delete of an object of document type `dt` — if `dt`
has a registered full-text field, clear every cache entry whose include-type
filter is empty or includes `dt`. -/
def applyMutation (reg : FulltextFieldMapping) (cache : List CacheEntry)
    (dt : String) : List CacheEntry :=
  if docTypeHasFulltextField reg dt then
    cache.filter (fun e => !entryCovers dt e)
  else cache

/-! Concrete fixtures used to exercise the definitions on closed inputs -/

/-- A sample structural record: a post whose title literally contains the
word "Rust". -/
def samplePost : Obj :=
  { name := "my-post", fields := [("spec.title", "Rust Programming Guide")] }

/-- An engine whose every search call fails with `EngineUnavailable`. -/
def failingEngine : EngineSearch :=
  fun _ => Except.error EngineErr.unavailable

/-- An engine whose every search call succeeds and returns the sample post. -/
def okEngine : EngineSearch :=
  fun _ => Except.ok ["my-post"]

/-- An environment with a configured but erroring engine, targeting the post
document type. -/
def envErr : EvalEnv :=
  { objects := [samplePost], docType := some "post.content.halo.run",
    registry := defaultFulltextFieldMapping, engine := some failingEngine }

/-- An environment with a working engine, targeting the post document type. -/
def envOk : EvalEnv :=
  { objects := [samplePost], docType := some "post.content.halo.run",
    registry := defaultFulltextFieldMapping, engine := some okEngine }

/-- An environment for a target type without a `DocTypeProvider` and with no
engine configured. -/
def envPlain : EvalEnv :=
  { objects := [samplePost], docType := none, registry := [], engine := none }

/-- A sample normalized option with the given include-type list and all other
fields at their defaults. -/
def sampleNormalized (types : List String) : NormalizedSearchOption :=
  { keyword := "rust", limit := 10, highlightPreTag := "<B>",
    highlightPostTag := "</B>", filterExposed := none, filterRecycled := none,
    filterPublished := none, includeTypes := types, includeOwnerNames := [],
    includeCategoryNames := [], includeTagNames := [], sortBy := .relevance,
    sortOrder := .desc }

/-- A cache entry scoped to a document-type list. -/
def sampleEntry (types : List String) (t : Nat) : CacheEntry :=
  { option := sampleNormalized types, results := [], insertedAt := t }

/-- A sample cache holding an untyped entry, a post-scoped entry and a
user-scoped entry. -/
def sampleCache : List CacheEntry :=
  [sampleEntry [] 0, sampleEntry ["post.content.halo.run"] 1,
   sampleEntry ["user.halo.run"] 2]

/-! Helper lemmas -/

theorem toFinset_filter_map_subset (objs : List Obj) (p : Obj → Bool) :
    ((objs.filter p).map Obj.name).toFinset ⊆ (objs.map Obj.name).toFinset := by
  intro x hx
  simp only [List.mem_toFinset, List.mem_map] at hx ⊢
  obtain ⟨o, ho, rfl⟩ := hx
  exact ⟨o, List.mem_of_mem_filter ho, rfl⟩

theorem substringFallback_subset (env : EvalEnv) (f v : String) :
    substringFallback env.objects f v ⊆ univNames env :=
  toFinset_filter_map_subset env.objects _

theorem evalContains_subset (env : EvalEnv) (hs : engineSound env) (f v : String) :
    (evalContains env f v).1 ⊆ univNames env := by
  rcases hdt : env.docType with _ | dt
  · simpa [evalContains, hdt] using substringFallback_subset env f v
  · rcases heng : env.engine with _ | g
    · cases he : fulltextEligible env.registry f dt <;>
        simpa [evalContains, hdt, heng, he] using substringFallback_subset env f v
    · cases he : fulltextEligible env.registry f dt
      · simpa [evalContains, hdt, heng, he] using substringFallback_subset env f v
      · rcases hr : g (scopedOption v dt) with e | names
        · simpa [evalContains, hdt, heng, he, hr] using substringFallback_subset env f v
        · simp only [evalContains, hdt, heng, he, hr, if_true]
          intro n hn
          exact hs g _ names heng hr n (by simpa using hn)

mutual

theorem evalFull_subset (env : EvalEnv) (hs : engineSound env) :
    ∀ c : Condition, (evalFull env c).1 ⊆ univNames env
  | .and cs => by simpa [evalFull] using evalAnd_subset env hs cs
  | .or cs => by simpa [evalFull] using evalOr_subset env hs cs
  | .not c => by simp only [evalFull]; exact Finset.sdiff_subset
  | .equal f v => by
      simpa [evalFull, structEqual] using toFinset_filter_map_subset env.objects _
  | .notEqual f v => by simp only [evalFull]; exact Finset.sdiff_subset
  | .isIn f vs => by
      simpa [evalFull, structIn] using toFinset_filter_map_subset env.objects _
  | .contains f v => by
      simpa [evalFull] using evalContains_subset env hs f v

theorem evalAnd_subset (env : EvalEnv) (hs : engineSound env) :
    ∀ cs : List Condition, (evalAnd env cs).1 ⊆ univNames env
  | [] => by simp [evalAnd]
  | [c] => by simpa [evalAnd] using evalFull_subset env hs c
  | c :: c' :: rest => by
      have h2 := evalAnd_subset env hs (c' :: rest)
      simp only [evalAnd]
      exact subset_trans Finset.inter_subset_right h2

theorem evalOr_subset (env : EvalEnv) (hs : engineSound env) :
    ∀ cs : List Condition, (evalOr env cs).1 ⊆ univNames env
  | [] => by simp [evalOr]
  | [c] => by simpa [evalOr] using evalFull_subset env hs c
  | c :: c' :: rest => by
      have h1 := evalFull_subset env hs c
      have h2 := evalOr_subset env hs (c' :: rest)
      simp only [evalOr]
      exact Finset.union_subset h1 h2

end

theorem eval_subset (env : EvalEnv) (hs : engineSound env) (c : Condition) :
    eval env c ⊆ univNames env :=
  evalFull_subset env hs c

theorem evalContains_pairs (env : EvalEnv) (f v : String) :
    ∀ p ∈ (evalContains env f v).2, fulltextEligible env.registry p.1 p.2 = true := by
  rcases hdt : env.docType with _ | dt
  · simp [evalContains, hdt]
  · cases he : fulltextEligible env.registry f dt
    · simp [evalContains, hdt, he]
    · rcases heng : env.engine with _ | g
      · simp [evalContains, hdt, he, heng]
      · rcases hr : g (scopedOption v dt) with e | names <;>
          simp [evalContains, hdt, he, heng, hr]

mutual

theorem evalFull_pairs (env : EvalEnv) :
    ∀ c : Condition, ∀ p ∈ (evalFull env c).2,
      fulltextEligible env.registry p.1 p.2 = true
  | .and cs => by simpa [evalFull] using evalAnd_pairs env cs
  | .or cs => by simpa [evalFull] using evalOr_pairs env cs
  | .not c => by simpa [evalFull] using evalFull_pairs env c
  | .equal f v => by simp [evalFull]
  | .notEqual f v => by simp [evalFull]
  | .isIn f vs => by simp [evalFull]
  | .contains f v => by simpa [evalFull] using evalContains_pairs env f v

theorem evalAnd_pairs (env : EvalEnv) :
    ∀ cs : List Condition, ∀ p ∈ (evalAnd env cs).2,
      fulltextEligible env.registry p.1 p.2 = true
  | [] => by simp [evalAnd]
  | [c] => by simpa [evalAnd] using evalFull_pairs env c
  | c :: c' :: rest => by
      intro p hp
      simp only [evalAnd, List.mem_append] at hp
      rcases hp with hp | hp
      · exact evalFull_pairs env c p hp
      · exact evalAnd_pairs env (c' :: rest) p hp

theorem evalOr_pairs (env : EvalEnv) :
    ∀ cs : List Condition, ∀ p ∈ (evalOr env cs).2,
      fulltextEligible env.registry p.1 p.2 = true
  | [] => by simp [evalOr]
  | [c] => by simpa [evalOr] using evalFull_pairs env c
  | c :: c' :: rest => by
      intro p hp
      simp only [evalOr, List.mem_append] at hp
      rcases hp with hp | hp
      · exact evalFull_pairs env c p hp
      · exact evalOr_pairs env (c' :: rest) p hp

end

theorem univNames_engine (env : EvalEnv) (e : Option EngineSearch) :
    univNames { env with engine := e } = univNames env := rfl

mutual

theorem evalFull_noDocType (env : EvalEnv) (e : Option EngineSearch)
    (h : env.docType = none) :
    ∀ c : Condition, evalFull { env with engine := e } c = evalFull env c
  | .and cs => by simpa [evalFull] using evalAnd_noDocType env e h cs
  | .or cs => by simpa [evalFull] using evalOr_noDocType env e h cs
  | .not c => by
      simp only [evalFull, univNames_engine]
      rw [evalFull_noDocType env e h c]
  | .equal f v => by simp [evalFull, univNames_engine]
  | .notEqual f v => by simp [evalFull, univNames_engine]
  | .isIn f vs => by simp [evalFull, univNames_engine]
  | .contains f v => by simp [evalFull, evalContains, h]

theorem evalAnd_noDocType (env : EvalEnv) (e : Option EngineSearch)
    (h : env.docType = none) :
    ∀ cs : List Condition, evalAnd { env with engine := e } cs = evalAnd env cs
  | [] => by simp [evalAnd, univNames_engine]
  | [c] => by simpa [evalAnd] using evalFull_noDocType env e h c
  | c :: c' :: rest => by
      simp only [evalAnd]
      rw [evalFull_noDocType env e h c, evalAnd_noDocType env e h (c' :: rest)]

theorem evalOr_noDocType (env : EvalEnv) (e : Option EngineSearch)
    (h : env.docType = none) :
    ∀ cs : List Condition, evalOr { env with engine := e } cs = evalOr env cs
  | [] => by simp [evalOr]
  | [c] => by simpa [evalOr] using evalFull_noDocType env e h c
  | c :: c' :: rest => by
      simp only [evalOr]
      rw [evalFull_noDocType env e h c, evalOr_noDocType env e h (c' :: rest)]

end

mutual

theorem evalFull_pairsNil (env : EvalEnv) (h : env.docType = none) :
    ∀ c : Condition, (evalFull env c).2 = []
  | .and cs => by simpa [evalFull] using evalAnd_pairsNil env h cs
  | .or cs => by simpa [evalFull] using evalOr_pairsNil env h cs
  | .not c => by simpa [evalFull] using evalFull_pairsNil env h c
  | .equal f v => by simp [evalFull]
  | .notEqual f v => by simp [evalFull]
  | .isIn f vs => by simp [evalFull]
  | .contains f v => by simp [evalFull, evalContains, h]

theorem evalAnd_pairsNil (env : EvalEnv) (h : env.docType = none) :
    ∀ cs : List Condition, (evalAnd env cs).2 = []
  | [] => by simp [evalAnd]
  | [c] => by simpa [evalAnd] using evalFull_pairsNil env h c
  | c :: c' :: rest => by
      simp only [evalAnd]
      rw [List.append_eq_nil]
      exact ⟨evalFull_pairsNil env h c, evalAnd_pairsNil env h (c' :: rest)⟩

theorem evalOr_pairsNil (env : EvalEnv) (h : env.docType = none) :
    ∀ cs : List Condition, (evalOr env cs).2 = []
  | [] => by simp [evalOr]
  | [c] => by simpa [evalOr] using evalFull_pairsNil env h c
  | c :: c' :: rest => by
      simp only [evalOr]
      rw [List.append_eq_nil]
      exact ⟨evalFull_pairsNil env h c, evalOr_pairsNil env h (c' :: rest)⟩

end

theorem isEmpty_false_of_ne (s : String) (h : s ≠ "") : s.isEmpty = false := by
  rw [Bool.eq_false_iff]
  intro he
  exact h ((String.isEmpty_iff s).mp he)

theorem eq_empty_of_toList_nil (s : String) (h : s.toList = []) : s = "" := by
  cases s
  simp_all [String.toList]

theorem asString_append (l1 l2 : List Char) :
    (l1 ++ l2).asString = l1.asString ++ l2.asString := rfl

theorem toList_asString (s : String) : s.toList.asString = s := rfl

theorem isEmpty_empty : ("" : String).isEmpty = true := rfl

theorem leadsWith_self (l : List Char) : leadsWith l l = true := by
  induction l with
  | nil => rfl
  | cons a as ih => simp [leadsWith, ih]

theorem highlightAux_nil (pre post nd : List Char) (fuel : Nat) :
    highlightAux pre post nd fuel [] = [] := by
  cases fuel <;> simp [highlightAux]

theorem docMatches_empty (d : Doc) : docMatches "" d = true := by
  simp [docMatches, isEmpty_empty]

theorem highlightDoc_empty (pre post : String) (d : Doc) :
    highlightDoc "" pre post d = d := by
  simp [highlightDoc, isEmpty_empty]

theorem map_highlightDoc_empty (pre post : String) (l : List Doc) :
    l.map (highlightDoc "" pre post) = l := by
  induction l with
  | nil => rfl
  | cons d ds ih => simp [highlightDoc_empty, ih]

/-! Claim theorems -/

/-- C1: whenever a `Contains` leaf cannot be delegated — engine not
configured, delegated call erroring, or field not full-text-eligible —
evaluation equals the case-insensitive substring comparison against the
literal field value, and an object whose field literally contains the value is
in the result.  The fallback is silent by construction: `eval` is total and
returns a plain result set, so no engine error ever reaches the caller. -/
theorem contains_fallback_silent (env : EvalEnv) (f v : String) (o : Obj)
    (s : String) (hf : fallbackTriggered env f v) (ho : o ∈ env.objects)
    (hfield : getFieldValue o.fields f = some s)
    (hc : containsIgnoreCase s v = true) :
    eval env (.contains f v) = substringFallback env.objects f v ∧
    o.name ∈ eval env (.contains f v) := by
  have hfall : eval env (.contains f v) = substringFallback env.objects f v := by
    rcases hf with heng | hdt | ⟨dt, hdt, he⟩ | ⟨dt, g, e, hdt, heng, herr⟩
    · rcases hdt : env.docType with _ | dt
      · simp [eval, evalFull, evalContains, hdt]
      · cases he : fulltextEligible env.registry f dt <;>
          simp [eval, evalFull, evalContains, hdt, he, heng]
    · simp [eval, evalFull, evalContains, hdt]
    · simp [eval, evalFull, evalContains, hdt, he]
    · cases he : fulltextEligible env.registry f dt <;>
        simp [eval, evalFull, evalContains, hdt, heng, herr, he]
  refine ⟨hfall, ?_⟩
  rw [hfall]
  simp only [substringFallback, List.mem_toFinset, List.mem_map, List.mem_filter]
  exact ⟨o, ⟨ho, by simp [hfield, hc]⟩, rfl⟩

/-- Witness for C1: with an erroring engine configured and the field
registered, the sample post whose title literally contains "rust" is returned
by the fallback. -/
theorem contains_fallback_silent_witness :
    "my-post" ∈ eval envErr (.contains "spec.title" "rust") :=
  (contains_fallback_silent envErr "spec.title" "rust" samplePost
    "Rust Programming Guide"
    (Or.inr (Or.inr (Or.inr
      ⟨"post.content.halo.run", failingEngine, EngineErr.unavailable, rfl, rfl, rfl⟩)))
    (by decide) (by decide) (by decide)).2

/-- C2: `And` evaluates to the intersection of its children's result sets and
`Or` to their union; the empty `And` yields the full universe of the target
object type and the empty `Or` yields the empty set. -/
theorem boolean_set_semantics :
    (∀ (env : EvalEnv) (a b : Condition),
      eval env (.and [a, b]) = eval env a ∩ eval env b) ∧
    (∀ (env : EvalEnv) (a b : Condition),
      eval env (.or [a, b]) = eval env a ∪ eval env b) ∧
    (∀ env : EvalEnv, eval env (.and []) = univNames env) ∧
    (∀ env : EvalEnv, eval env (.or []) = ∅) := by
  refine ⟨?_, ?_, ?_, ?_⟩ <;> intros <;> simp [eval, evalFull, evalAnd, evalOr]

/-- C3: `Not` complements relative to the full universe of the target object
type, and consequently — under the engine soundness condition that scoped
searches return names of the target type's objects — double negation is the
identity. -/
theorem not_full_universe_complement (env : EvalEnv) (c : Condition) :
    eval env (.not c) = univNames env \ eval env c ∧
    (engineSound env → eval env (.not (.not c)) = eval env c) := by
  constructor
  · simp [eval, evalFull]
  · intro hs
    have hsub : eval env c ⊆ univNames env := eval_subset env hs c
    show univNames env \ (evalFull env (.not c)).1 = eval env c
    simp only [evalFull]
    exact Finset.sdiff_sdiff_eq_self hsub

/-- Witness for C3: double negation at a concrete environment (no engine, so
engine soundness holds vacuously) and a concrete leaf condition. -/
theorem not_full_universe_complement_witness :
    eval envPlain (.not (.not (.equal "spec.title" "x")))
      = eval envPlain (.equal "spec.title" "x") :=
  (not_full_universe_complement envPlain (.equal "spec.title" "x")).2
    (by
      intro g o r h
      exact absurd h (by simp [envPlain]))

/-- C4 counterexample: the repository's API documentation reports the empty
keyword rejection message as "Keyword cannot be empty" (capital K), so
validation does not produce the exact message "keyword cannot be empty" the
claim states. -/
theorem empty_keyword_message_counterexample :
    validateSearchRequest "" 10 ≠
      Except.error (FlowError.invalidArgument "keyword cannot be empty") := by
  simp only [validateSearchRequest, isEmpty_empty, if_true]
  intro h
  have h1 := Except.error.inj h
  have h2 := FlowError.invalidArgument.inj h1
  simp at h2

/-- C4 (amended): an empty keyword is rejected with
`InvalidArgument("Keyword cannot be empty")`, a limit outside [1, 1000] is
rejected with `InvalidArgument`, a valid request passes validation, and absent
(tri-state unset / empty-list) filters and include-lists impose no
constraint. -/
theorem search_request_validation :
    (∀ l : Nat, validateSearchRequest "" l =
      Except.error (FlowError.invalidArgument "Keyword cannot be empty")) ∧
    (∀ (kw : String) (l : Nat), kw ≠ "" → (l < 1 ∨ 1000 < l) →
      ∃ m, validateSearchRequest kw l = Except.error (FlowError.invalidArgument m)) ∧
    (∀ (kw : String) (l : Nat), kw ≠ "" → 1 ≤ l → l ≤ 1000 →
      validateSearchRequest kw l = Except.ok ()) ∧
    (∀ b : Bool, passesTri none b = true) ∧
    (∀ s : String, passesAnyOf [] s = true) ∧
    (∀ ds : List String, passesAllOf [] ds = true) := by
  refine ⟨?_, ?_, ?_, ?_, ?_, ?_⟩
  · intro l
    simp [validateSearchRequest, isEmpty_empty]
  · intro kw l hk hl
    refine ⟨"limit must be between 1 and 1000", ?_⟩
    have hke := isEmpty_false_of_ne kw hk
    simp [validateSearchRequest, hke]
    omega
  · intro kw l hk h1 h2
    have hke := isEmpty_false_of_ne kw hk
    simp [validateSearchRequest, hke]
    omega
  · intro b
    rfl
  · intro s
    rfl
  · intro ds
    rfl

/-- Witness for C4: a well-formed request passes validation. -/
theorem search_request_validation_witness :
    validateSearchRequest "rust" 10 = Except.ok () :=
  search_request_validation.2.2.1 "rust" 10 (by decide) (by decide) (by decide)

/-- C5: with an empty keyword the ranked search disables highlighting and
still returns all matching documents (every document matches an empty
keyword, so only the optional filters remain); highlighting touches only the
`title`, `description` and `content` fields of a hit; and the pre/post tags
are inserted verbatim around matched spans, unescaped. -/
theorem ranked_search_highlighting :
    (∀ (docs : List Doc) (o : NormalizedSearchOption), o.keyword = "" →
      searchDocs docs o =
        (docs.filter (fun d => docPassesFilters o d)).take o.limit) ∧
    (∀ (kw pre post : String) (d : Doc),
      (highlightDoc kw pre post d).name = d.name ∧
      (highlightDoc kw pre post d).permalink = d.permalink ∧
      (highlightDoc kw pre post d).docType = d.docType ∧
      (highlightDoc kw pre post d).published = d.published ∧
      (highlightDoc kw pre post d).exposed = d.exposed ∧
      (highlightDoc kw pre post d).recycled = d.recycled ∧
      (highlightDoc kw pre post d).ownerName = d.ownerName ∧
      (highlightDoc kw pre post d).categories = d.categories ∧
      (highlightDoc kw pre post d).tags = d.tags) ∧
    (∀ pre post kw : String, kw ≠ "" →
      highlightField pre post kw kw = pre ++ kw ++ post) ∧
    highlightField "<B>" "</B>" "Rust" "Rust Programming Guide"
      = "<B>Rust</B> Programming Guide" := by
  refine ⟨?_, ?_, ?_, by decide⟩
  · intro docs o ho
    simp [searchDocs, ho, docMatches_empty, map_highlightDoc_empty]
  · intro kw pre post d
    unfold highlightDoc
    split <;> simp
  · intro pre post kw hk
    have hke := isEmpty_false_of_ne kw hk
    obtain ⟨c, rest, hd⟩ : ∃ c rest, kw.toList = c :: rest := by
      cases hl : kw.toList with
      | nil => exact absurd (eq_empty_of_toList_nil kw hl) hk
      | cons c rest => exact ⟨c, rest, rfl⟩
    unfold highlightField
    rw [hke]
    simp only [Bool.false_eq_true, if_false, hd, List.length_cons]
    rw [highlightAux]
    simp only [List.isEmpty_cons, leadsWith_self, if_true, Bool.false_eq_true, if_false,
      List.length_cons, Nat.add_sub_cancel, List.drop_length, highlightAux_nil,
      List.append_nil]
    rw [asString_append, asString_append, ← hd, toList_asString, toList_asString,
      toList_asString]

/-- Witness for C5: a keyword highlighted inside itself is exactly the verbatim
pre-tag, keyword, post-tag concatenation. -/
theorem ranked_search_highlighting_witness :
    highlightField "<B>" "</B>" "Rust" "Rust" = "<B>" ++ "Rust" ++ "</B>" :=
  ranked_search_highlighting.2.2.1 "<B>" "</B>" "Rust" (by decide)

/-- C6: the cache fingerprint is a deterministic function of the normalized
`SearchOption` — options that normalize identically fingerprint identically,
an option with explicit default values fingerprints the same as one with
those fields unset, and options that differ in `keyword` always fingerprint
differently. -/
theorem fingerprint_invariants :
    (∀ o1 o2 : SearchOption, normalize o1 = normalize o2 →
      fingerprint o1 = fingerprint o2) ∧
    (∀ o : SearchOption, fingerprint (withExplicitDefaults o) = fingerprint o) ∧
    (∀ o1 o2 : SearchOption, o1.keyword ≠ o2.keyword →
      fingerprint o1 ≠ fingerprint o2) := by
  refine ⟨?_, ?_, ?_⟩
  · intro o1 o2 h
    exact h
  · intro o
    simp [fingerprint, normalize, withExplicitDefaults]
  · intro o1 o2 h hfp
    exact h (congrArg NormalizedSearchOption.keyword hfp)

/-- Witness for C6: two options differing only in keyword have different
fingerprints. -/
theorem fingerprint_invariants_witness :
    fingerprint { keyword := "rust" } ≠ fingerprint { keyword := "lean" } :=
  fingerprint_invariants.2.2 { keyword := "rust" } { keyword := "lean" } (by decide)

/-- C8: a successful mutation of an object whose document type has a
registered full-text field clears exactly the cache entries whose
include-type filter is empty or includes that document type: no surviving
entry covers the mutated type, and entries not covering it survive. -/
theorem mutation_clears_covered_entries (reg : FulltextFieldMapping)
    (cache : List CacheEntry) (dt : String)
    (h : docTypeHasFulltextField reg dt = true) :
    (∀ e ∈ applyMutation reg cache dt, entryCovers dt e = false) ∧
    (∀ e ∈ cache, entryCovers dt e = false → e ∈ applyMutation reg cache dt) := by
  constructor
  · intro e he
    simp only [applyMutation, h, if_true] at he
    have hp := List.of_mem_filter he
    simpa using hp
  · intro e he hc
    simp only [applyMutation, h, if_true]
    exact List.mem_filter.mpr ⟨he, by simp [hc]⟩

/-- Witness for C8: after a post mutation, the user-scoped entry of the sample
cache survives (while the theorem's first half shows every surviving entry
does not cover the post type). -/
theorem mutation_clears_covered_entries_witness :
    sampleEntry ["user.halo.run"] 2 ∈
      applyMutation defaultFulltextFieldMapping sampleCache "post.content.halo.run" :=
  (mutation_clears_covered_entries defaultFulltextFieldMapping sampleCache
    "post.content.halo.run" (by decide)).2
    (sampleEntry ["user.halo.run"] 2) (by decide) (by decide)

/-- C9: a `Contains` leaf is full-text-eligible exactly when its field path is
registered for the document type in the Fulltext Field Registry, and every
(field, doc-type) pair evaluation ever delegates to the search engine is
eligible — an unregistered pair is never sent to the engine. -/
theorem fulltext_eligibility :
    (∀ (reg : FulltextFieldMapping) (f dt : String),
      fulltextEligible reg f dt = true ↔ ∃ dts, (f, dts) ∈ reg ∧ dt ∈ dts) ∧
    (∀ (env : EvalEnv) (c : Condition) (p : String × String),
      p ∈ enginePairs env c → fulltextEligible env.registry p.1 p.2 = true) := by
  constructor
  · intro reg f dt
    simp only [fulltextEligible, List.any_eq_true, Bool.and_eq_true, beq_iff_eq,
      List.elem_iff]
    constructor
    · rintro ⟨⟨f', dts⟩, hmem, rfl, hdt⟩
      exact ⟨dts, hmem, hdt⟩
    · rintro ⟨dts, hmem, hdt⟩
      exact ⟨(f, dts), hmem, rfl, hdt⟩
  · intro env c p hp
    exact evalFull_pairs env c p hp

/-- Witness for C9: the pair actually delegated by a `Contains` query on the
registered `spec.title` field against a working engine is eligible. -/
theorem fulltext_eligibility_witness :
    fulltextEligible defaultFulltextFieldMapping "spec.title"
      "post.content.halo.run" = true :=
  fulltext_eligibility.2 envOk (.contains "spec.title" "rust")
    ("spec.title", "post.content.halo.run") (by decide)

/-- C10: a target type without a `DocTypeProvider` (no document type) never
reaches the search engine through `Contains` evaluation — no query is
delegated and the configured engine is irrelevant to the result — and the
standard `retrieve()` path resolves every `Contains` leaf by literal substring
matching even for registry-listed field paths.  The degradation produces an
ordinary result set, not an error. -/
theorem no_doctype_no_engine (env : EvalEnv) (c : Condition)
    (h : env.docType = none) :
    enginePairs env c = [] ∧
    (∀ e, eval { env with engine := e } c = eval env c) ∧
    (∀ (env2 : EvalEnv) (f v : String),
      retrieveStd env2 (.contains f v) = substringFallback env2.objects f v) := by
  refine ⟨evalFull_pairsNil env h c, ?_, ?_⟩
  · intro e
    show (evalFull { env with engine := e } c).1 = (evalFull env c).1
    rw [evalFull_noDocType env e h c]
  · intro env2 f v
    simp [retrieveStd, eval, evalFull, evalContains]

/-- Witness for C10: in the sample provider-less environment, a `Contains`
query on a registry-listed field delegates nothing to the engine. -/
theorem no_doctype_no_engine_witness :
    enginePairs envPlain (.contains "spec.title" "rust") = [] :=
  (no_doctype_no_engine envPlain (.contains "spec.title" "rust") rfl).1

end Flow
